import Mathlib

/-!
Shallow embedding of the TorchServe C++ BERT handler
(examples/cpp/aot_inductor/bert/src/bert_handler.cc) and verification of the
spec claims about it.

Modelling conventions:
- std::map / unordered_map values are association lists; the uint8_t-keyed
  row tracker is a key-sorted unique association list (mapInsert mirrors
  std::map operator[] assignment, iteration order is key order).
- The tokenizer is an opaque oracle String -> Option (List Int); none models
  a thrown std::runtime_error inside Encode (caught per request).
- torch::from_blob(data, max_length) over the token id buffer is modelled as
  List.take maxLength of the (possibly padded) id list: the created row view
  always exposes exactly max_length elements.
- GetJsonValue uses a bare rethrow with no active exception on a missing
  key, which calls std::terminate; a lookup miss there is modelled as an
  uncatchable abort (the Option result none of postprocess, the load error
  of loadModel).
-/

namespace Bert

/-- First-match lookup in an association list, as map::find. -/
def lookupA {α : Type} : List (String × α) → String → Option α
  | [], _ => none
  | (k, v) :: rest, key => if k = key then some v else lookupA rest key

/-- Update the first binding of a key, or append a fresh one, as assignment
through map::operator[]. -/
def setA {α : Type} : List (String × α) → String → α → List (String × α)
  | [], key, v => [(key, v)]
  | (k, w) :: rest, key, v =>
    if k = key then (key, v) :: rest else (k, w) :: setA rest key v

/-- Ordered insert-or-overwrite for Nat keys: std::map of uint8_t keys,
kept sorted with unique keys. -/
def mapInsert : List (Nat × String) → Nat → String → List (Nat × String)
  | [], key, v => [(key, v)]
  | (k, w) :: rest, key, v =>
    if key < k then (key, v) :: (k, w) :: rest
    else if key = k then (key, v) :: rest
    else (k, w) :: mapInsert rest key v

/-- Pairs (n, a), (n+1, a), ... over a list: the shape of the row tracker
when row indices have not wrapped. -/
def enumF : Nat → List String → List (Nat × String)
  | _, [] => []
  | n, a :: as => (n, a) :: enumF (n + 1) as

/-- One request of the inference batch (request_id, headers, parameters);
parameter values are the raw payload bytes, read back as a string by
Converter::VectorToStr. -/
structure InferenceRequest where
  request_id : String
  headers : List (String × String)
  parameters : List (String × String)
deriving DecidableEq

/-- A response slot: none is the fresh placeholder InferenceResponse,
some (code, msg) after SetResponse. -/
abbrev Response := Option (Nat × String)

/-- The response batch: request_id to response slot. -/
abbrev RespMap := List (String × Response)

/-- Handler configuration available to Preprocess: max_length from
config.json, the pad token id TokenToId of the pad token, and the opaque
tokenizer Encode oracle (none models a thrown runtime_error). -/
structure Config where
  maxLength : Nat
  padId : Int
  tokenizer : String → Option (List Int)

/-- torchserve::PayloadType::kPARAMETER_NAME_DATA (framework constant). -/
def kParameterNameData : String := "data"

/-- torchserve::PayloadType::kPARAMETER_NAME_BODY (framework constant). -/
def kParameterNameBody : String := "body"

/-- torchserve::PayloadType::kHEADER_NAME_DATA_TYPE (framework constant). -/
def kHeaderNameDataType : String := "data_dt"

/-- torchserve::PayloadType::kHEADER_NAME_BODY_TYPE (framework constant). -/
def kHeaderNameBodyType : String := "body_dt"

/-- Payload extraction of Preprocess lines 85-103: look up the data
parameter together with the data-type header; only when the data parameter
itself is absent fall back to the body parameter and body-type header; if
the chosen parameter or its header is missing the payload is empty. -/
def payloadOf (req : InferenceRequest) : Option String :=
  match lookupA req.parameters kParameterNameData with
  | some v =>
    match lookupA req.headers kHeaderNameDataType with
    | some _ => some v
    | none => none
  | none =>
    match lookupA req.parameters kParameterNameBody,
          lookupA req.headers kHeaderNameBodyType with
    | some v, some _ => some v
    | _, _ => none

/-- Row construction of Preprocess lines 111-118: sequences shorter than
max_length are right-padded with the pad id; the from_blob view then
exposes exactly the first max_length elements of the buffer. -/
def padToMax (maxLength : Nat) (padId : Int) (ids : List Int) : List Int :=
  (if ids.length < maxLength then
     ids ++ List.replicate (maxLength - ids.length) padId
   else ids).take maxLength

/-- Message of the 500 response for a missing payload (line 101). -/
def msgEmptyPayload : String := "Empty payload"

/-- Message of the 500 response for a tokenization failure (line 126). -/
def msgLoadTensorFail : String := "runtime_error, failed to load tensor"

/-- Message of the 500 response for a caught c10 error in Postprocess
(line 194). -/
def msgPostprocessFail : String := "c10 error, failed to postprocess tensor"

/-- Mutable state threaded through the Preprocess loop: the response
batch, the aggregate request-id string (idx_to_req_id.first), the row
tracker map (idx_to_req_id.second), the collected token rows
(tokens_ivalue) and the uint8_t row cursor idx. -/
structure PreState where
  responses : RespMap
  agg : String
  tracker : List (Nat × String)
  rows : List (List Int)
  idx : Nat
deriving DecidableEq

/-- Aggregate id append of lines 81-83: comma-separated unless the
accumulated string is still empty. -/
def aggAppend (agg id : String) : String :=
  if agg.isEmpty then agg ++ id else agg ++ ("," ++ id)

/-- The body of the Preprocess loop for one request (lines 77-134):
create the placeholder response, extend the aggregate id string, extract
the payload (500 Empty payload and no row if absent), tokenize (a thrown
error gives a 500 and no row), otherwise pad, append the row, record the
tracker entry and advance the wrapped uint8_t cursor. -/
def processRequest (cfg : Config) (s : PreState) (req : InferenceRequest) :
    PreState :=
  let resps := setA s.responses req.request_id none
  let agg := aggAppend s.agg req.request_id
  match payloadOf req with
  | none =>
    { s with
      responses := setA resps req.request_id (some (500, msgEmptyPayload))
      agg := agg }
  | some msg =>
    match cfg.tokenizer msg with
    | none =>
      { s with
        responses := setA resps req.request_id (some (500, msgLoadTensorFail))
        agg := agg }
    | some ids =>
      { responses := resps
        agg := agg
        tracker := mapInsert s.tracker s.idx req.request_id
        rows := s.rows ++ [padToMax cfg.maxLength cfg.padId ids]
        idx := (s.idx + 1) % 256 }

/-- Result of Preprocess: the loop state plus the shape declared for the
returned batch tensor (line 136 uses request_batch size, not the number of
collected rows) and for the attention mask (line 75). -/
structure PreprocessResult where
  state : PreState
  declaredRows : Nat
  maskRows : Nat
deriving DecidableEq

/-- Initial loop state: empty response map, empty aggregate string, empty
tracker, no rows, cursor 0. -/
def initState : PreState := ⟨[], "", [], [], 0⟩

/-- BertCppHandler::Preprocess, lines 68-140. -/
def preprocess (cfg : Config) (batch : List InferenceRequest) :
    PreprocessResult :=
  ⟨batch.foldl (processRequest cfg) initState, batch.length, batch.length⟩

/-- Tokenization outcome of a request: payload extraction then Encode. -/
def tokensOf (cfg : Config) (req : InferenceRequest) : Option (List Int) :=
  (payloadOf req).bind cfg.tokenizer

/-- True when the request passes payload extraction and tokenization, and
hence receives a row. -/
def isEncoded (cfg : Config) (req : InferenceRequest) : Bool :=
  (tokensOf cfg req).isSome

/-- The successfully encoded requests of a batch, in arrival order. -/
def encList (cfg : Config) (batch : List InferenceRequest) :
    List InferenceRequest :=
  batch.filter (isEncoded cfg)

/-- The token row contributed by an encoded request. -/
def rowOf (cfg : Config) (req : InferenceRequest) : List Int :=
  padToMax cfg.maxLength cfg.padId ((tokensOf cfg req).getD [])

/-- Request ids of the successfully encoded requests, in arrival order. -/
def encIds (cfg : Config) (batch : List InferenceRequest) : List String :=
  (encList cfg batch).map (·.request_id)

/-- Net effect of one loop iteration on the response slot of its request:
500 Empty payload, 500 failed to load tensor, or the untouched placeholder
of a successfully encoded request. -/
def outcomeOf (cfg : Config) (req : InferenceRequest) : Response :=
  match payloadOf req with
  | none => some (500, msgEmptyPayload)
  | some msg =>
    match cfg.tokenizer msg with
    | none => some (500, msgLoadTensorFail)
    | some _ => none

/-- Comma-separated join with the emptiness test of lines 81-83. -/
def commaJoin (ids : List String) : String := ids.foldl aggAppend ""

/-- The prefix of a row before the first pad token. -/
def takeBeforePad (padId : Int) (row : List Int) : List Int :=
  row.takeWhile (fun x => x != padId)

/-- A folly::dynamic JSON value as far as the handler reads them. -/
inductive JVal where
  | jint (n : Int)
  | jstr (s : String)
deriving DecidableEq

/-- folly::dynamic::asInt as used on config values. -/
def asIntJ : JVal → Option Int
  | .jint n => some n
  | .jstr s => s.toInt?

/-- folly::dynamic::asString as used on config and mapping values. -/
def asStrJ : JVal → String
  | .jstr s => s
  | .jint n => toString n

/-- BertCppHandler::GetJsonValue, lines 15-22: key lookup in a parsed JSON
document; none models the missing-key branch, which logs the required
field error and then executes a bare rethrow with no active exception
(std::terminate). -/
def getJsonValue (doc : List (String × JVal)) (key : String) : Option JVal :=
  lookupA doc key

/-- torch::argmax accumulator: index of the first maximal entry. -/
def argmaxAux : List Int → Nat → Nat → Int → Nat
  | [], _, best, _ => best
  | x :: rest, i, best, bv =>
    if bv < x then argmaxAux rest (i + 1) i x
    else argmaxAux rest (i + 1) best bv

/-- torch::argmax over one output row: index of the first maximal entry. -/
def argmaxIdx : List Int → Nat
  | [] => 0
  | x :: rest => argmaxAux rest 1 0 x

/-- Decoding of one tracked row in Postprocess (lines 171-179): an
out-of-range row index or an empty row raises a catchable c10 error (500
response, line 194); otherwise the argmax class index is looked up in the
label mapping, and a missing label key hits the bare rethrow of
GetJsonValue, which terminates the process (result none). -/
def decodeOne (mapping : List (String × JVal)) (out : List (List Int))
    (i : Nat) : Option (Nat × String) :=
  match out.get? i with
  | none => some (500, msgPostprocessFail)
  | some row =>
    if row.isEmpty then some (500, msgPostprocessFail)
    else
      match getJsonValue mapping (toString (argmaxIdx row)) with
      | none => none
      | some label => some (200, asStrJ label)

/-- One iteration of the Postprocess loop over the tracker; none is an
already-terminated process. -/
def postStep (mapping : List (String × JVal)) (out : List (List Int))
    (acc : Option RespMap) (e : Nat × String) : Option RespMap :=
  match acc with
  | none => none
  | some resp =>
    match decodeOne mapping out e.1 with
    | none => none
    | some v => some (setA resp e.2 (some v))

/-- BertCppHandler::Postprocess, lines 165-197: walk the tracker in key
order and finalize the response of each tracked request; none models the
process terminating on a label lookup miss. -/
def postprocess (mapping : List (String × JVal)) (out : List (List Int))
    (tracker : List (Nat × String)) (resp : RespMap) : Option RespMap :=
  tracker.foldl (postStep mapping out) (some resp)

/-- Failure outcomes of LoadModel: an unreadable file (LoadJsonFile, line
10), a required key missing from a document (GetJsonValue, line 20) or a
value of the wrong JSON type; each aborts loading with no handler
produced. -/
inductive LoadError where
  | fileNotFound
  | missingField (key : String)
  | typeError
deriving DecidableEq

/-- The engine implementation selected at load time (line 46). -/
inductive EngineKind where
  | cuda
  | cpu
deriving DecidableEq

/-- Everything LoadModel leaves behind on success: the label mapping, the
parsed max_length, the tokenizer blob, the artifact path and the chosen
engine implementation. -/
structure LoadedState where
  mapping : List (String × JVal)
  maxLength : Int
  tokenizerBlob : String
  modelSoPath : String
  engine : EngineKind
deriving DecidableEq

/-- BertCppHandler::LoadModel, lines 24-66: read the label mapping file
and the config file, read max_length, tokenizer_path and model_so_path
from the config (each a required key whose absence aborts loading through
the terminating branch of GetJsonValue), load the tokenizer blob, and
select the cuda or cpu engine by the device; every failure leaves no
loaded handler behind. -/
def loadModel (isCuda : Bool)
    (mappingFile configFile : Option (List (String × JVal)))
    (tokenizerFile : Option String) : Except LoadError LoadedState :=
  match mappingFile with
  | none => .error .fileNotFound
  | some mapping =>
    match configFile with
    | none => .error .fileNotFound
    | some config =>
      match getJsonValue config "max_length" with
      | none => .error (.missingField "max_length")
      | some mlv =>
        match asIntJ mlv with
        | none => .error .typeError
        | some maxLen =>
          match getJsonValue config "tokenizer_path" with
          | none => .error (.missingField "tokenizer_path")
          | some _ =>
            match tokenizerFile with
            | none => .error .fileNotFound
            | some blob =>
              match getJsonValue config "model_so_path" with
              | none => .error (.missingField "model_so_path")
              | some soPathV =>
                .ok { mapping := mapping
                      maxLength := maxLen
                      tokenizerBlob := blob
                      modelSoPath := asStrJ soPathV
                      engine := if isCuda then .cuda else .cpu }

/-! ## Concrete fixtures used by the claim witnesses and counterexamples -/

/-- Witness config for the row correspondence claim: max_length 2, pad 0,
tokenizer always one token. -/
def cfgC1w : Config := ⟨2, 0, fun _ => some [1]⟩

/-- Witness request with a valid data payload. -/
def reqC1w : InferenceRequest := ⟨"a", [("data_dt", "string")], [("data", "x")]⟩

/-- Witness label mapping with the class index 0. -/
def mappingC1w : List (String × JVal) := [("0", .jstr "LabelA")]

/-- Counterexample config with max_length 2 and a tokenizer returning
three tokens, one more than fits. -/
def cfgC2 : Config := ⟨2, 9, fun _ => some [1, 2, 3]⟩

/-- Counterexample request with a valid data payload. -/
def reqC2 : InferenceRequest := ⟨"r1", [("data_dt", "string")], [("data", "hello")]⟩

/-- Config with max_length 2 and a one-token tokenizer. -/
def cfgC3 : Config := ⟨2, 0, fun _ => some [1]⟩

/-- A request with a valid data payload. -/
def reqOkC3 : InferenceRequest := ⟨"a", [("data_dt", "string")], [("data", "x")]⟩

/-- A request with no payload parameter at all. -/
def reqBadC3 : InferenceRequest := ⟨"b", [], []⟩

/-- Config with max_length 3 and a total one-token tokenizer. -/
def cfgC4 : Config := ⟨3, 0, fun _ => some [5]⟩

/-- A request with a valid data payload. -/
def reqC4ok : InferenceRequest := ⟨"g", [("data_dt", "s")], [("data", "x")]⟩

/-- A request with a body-type header but no payload parameter in either
key form. -/
def reqC4bad : InferenceRequest := ⟨"h", [("body_dt", "s")], []⟩

/-- Label mapping knowing only class index 0, while the output row below
has argmax index 1. -/
def mappingC5 : List (String × JVal) := [("0", .jstr "Negative")]

/-- Config used by the no-fallback witness. -/
def cfgC8 : Config := ⟨2, 0, fun _ => some [1]⟩

/-- A request holding the data parameter without the data-type header,
and a complete body parameter and header pair. -/
def reqC8 : InferenceRequest :=
  ⟨"w", [("body_dt", "string")], [("data", "x"), ("body", "y")]⟩

/-- Config for the uint8 wrap witness: every request encodes to one
token. -/
def cfgC9 : Config := ⟨1, 0, fun _ => some [1]⟩

/-- A batch of 300 valid requests with distinct ids: more than 256 rows
are encoded, so the uint8_t row cursor wraps. -/
def batchC9 : List InferenceRequest :=
  (List.range 300).map (fun n => ⟨toString n, [("data_dt", "s")], [("data", "x")]⟩)

end Bert

namespace Bert

/-! ## Association list and tracker map lemmas -/

theorem lookupA_setA_self {α : Type} (m : List (String × α)) (k : String)
    (v : α) : lookupA (setA m k v) k = some v := by
  induction m with
  | nil => simp [setA, lookupA]
  | cons p rest ih =>
    by_cases h : p.1 = k
    · simp [setA, h, lookupA]
    · simp [setA, h, lookupA, ih]

theorem lookupA_setA_ne {α : Type} (m : List (String × α)) (k k' : String)
    (v : α) (h : k' ≠ k) : lookupA (setA m k v) k' = lookupA m k' := by
  have hk : k ≠ k' := fun hh => h hh.symm
  induction m with
  | nil => simp [setA, lookupA, hk]
  | cons p rest ih =>
    obtain ⟨pk, pv⟩ := p
    by_cases hp : pk = k
    · have hp' : pk ≠ k' := hp ▸ hk
      simp [setA, hp, lookupA, hk, hp']
    · simp only [setA, hp, if_false, lookupA]
      by_cases hpk : pk = k'
      · simp [hpk]
      · simp [hpk, ih]

theorem setA_setA {α : Type} (m : List (String × α)) (k : String) (a b : α) :
    setA (setA m k a) k b = setA m k b := by
  induction m with
  | nil => simp [setA]
  | cons p rest ih =>
    by_cases h : p.1 = k
    · simp [setA, h]
    · simp [setA, h, ih]

theorem mapInsert_mem (l : List (Nat × String)) (k : Nat) (v : String)
    (p : Nat × String) (hp : p ∈ mapInsert l k v) : p = (k, v) ∨ p ∈ l := by
  induction l with
  | nil => simpa [mapInsert] using hp
  | cons q rest ih =>
    obtain ⟨qk, qv⟩ := q
    by_cases h1 : k < qk
    · rcases (by simpa [mapInsert, h1] using hp) with h | h | h
      · exact Or.inl h
      · exact Or.inr (by simp [h])
      · exact Or.inr (List.mem_cons_of_mem _ h)
    · by_cases h2 : k = qk
      · subst h2
        rcases (by simpa [mapInsert, h1] using hp) with h | h
        · exact Or.inl h
        · exact Or.inr (List.mem_cons_of_mem _ h)
      · rcases (by simpa [mapInsert, h1, h2] using hp) with h | h
        · exact Or.inr (by simp [h])
        · rcases ih h with h' | h'
          · exact Or.inl h'
          · exact Or.inr (List.mem_cons_of_mem _ h')

theorem mapInsert_atEnd (l : List (Nat × String)) (k : Nat) (v : String)
    (h : ∀ p ∈ l, p.1 < k) : mapInsert l k v = l ++ [(k, v)] := by
  induction l with
  | nil => simp [mapInsert]
  | cons q rest ih =>
    have hq : q.1 < k := h q (by simp)
    have h1 : ¬ k < q.1 := by omega
    have h2 : ¬ k = q.1 := by omega
    simp [mapInsert, h1, h2]
    exact ih (fun p hp => h p (List.mem_cons_of_mem _ hp))

theorem mapInsert_pairwise (l : List (Nat × String)) (k : Nat) (v : String)
    (h : l.Pairwise (fun a b => a.1 < b.1)) :
    (mapInsert l k v).Pairwise (fun a b => a.1 < b.1) := by
  induction l with
  | nil => simp [mapInsert]
  | cons q rest ih =>
    obtain ⟨qk, qv⟩ := q
    rw [List.pairwise_cons] at h
    obtain ⟨hb, hrest⟩ := h
    by_cases h1 : k < qk
    · rw [show mapInsert ((qk, qv) :: rest) k v = (k, v) :: (qk, qv) :: rest by
        simp [mapInsert, h1]]
      refine List.Pairwise.cons ?_ (List.Pairwise.cons hb hrest)
      intro b hbmem
      rcases List.mem_cons.mp hbmem with rfl | hbmem
      · exact h1
      · exact lt_trans h1 (hb _ hbmem)
    · by_cases h2 : k = qk
      · subst h2
        rw [show mapInsert ((k, qv) :: rest) k v = (k, v) :: rest by
          simp [mapInsert, h1]]
        exact List.Pairwise.cons (fun b hbmem => hb _ hbmem) hrest
      · rw [show mapInsert ((qk, qv) :: rest) k v = (qk, qv) :: mapInsert rest k v by
          simp [mapInsert, h1, h2]]
        refine List.Pairwise.cons ?_ (ih hrest)
        intro b hbmem
        rcases mapInsert_mem rest k v b hbmem with hb' | hb'
        · subst hb'; simp only; omega
        · exact hb _ hb'

/-! ## enumF lemmas -/

theorem enumF_length (n : Nat) (as : List String) :
    (enumF n as).length = as.length := by
  induction as generalizing n with
  | nil => simp [enumF]
  | cons a as ih => simp [enumF, ih]

theorem enumF_append (n : Nat) (as bs : List String) :
    enumF n (as ++ bs) = enumF n as ++ enumF (n + as.length) bs := by
  induction as generalizing n with
  | nil => simp [enumF]
  | cons a as ih =>
    calc enumF n ((a :: as) ++ bs)
        = (n, a) :: enumF (n + 1) (as ++ bs) := rfl
      _ = (n, a) :: (enumF (n + 1) as ++ enumF (n + 1 + as.length) bs) := by
          rw [ih]
      _ = enumF n (a :: as) ++ enumF (n + (a :: as).length) bs := by
          have h3 : n + 1 + as.length = n + (a :: as).length := by
            show n + 1 + as.length = n + (as.length + 1)
            omega
          rw [h3]
          rfl

theorem enumF_mem (as : List String) (n i : Nat) (a : String) :
    (i, a) ∈ enumF n as ↔ n ≤ i ∧ as.get? (i - n) = some a := by
  induction as generalizing n i with
  | nil => simp [enumF]
  | cons b bs ih =>
    simp only [enumF, List.mem_cons, Prod.mk.injEq, ih]
    constructor
    · rintro (⟨rfl, rfl⟩ | ⟨hle, hget⟩)
      · simp
      · refine ⟨by omega, ?_⟩
        have hi : i - n = (i - (n + 1)) + 1 := by omega
        rw [hi, List.get?_cons_succ]
        exact hget
    · rintro ⟨hle, hget⟩
      by_cases hi : i = n
      · subst hi
        simp at hget
        exact Or.inl ⟨rfl, hget.symm⟩
      · right
        refine ⟨by omega, ?_⟩
        have h2 : i - n = (i - (n + 1)) + 1 := by omega
        rw [h2, List.get?_cons_succ] at hget
        exact hget

theorem enumF_keys_lt (as : List String) (n : Nat) (p : Nat × String)
    (hp : p ∈ enumF n as) : p.1 < n + as.length := by
  obtain ⟨i, a⟩ := p
  rw [enumF_mem] at hp
  obtain ⟨hle, hget⟩ := hp
  have hlt : i - n < as.length := by
    by_contra hc
    have hnone : as.get? (i - n) = none := List.get?_eq_none.mpr (by omega)
    rw [hnone] at hget
    exact Option.noConfusion hget
  show i < n + as.length
  omega

end Bert

namespace Bert

/-! ## processRequest branch lemmas -/

theorem processRequest_payload_none (cfg : Config) (s : PreState)
    (req : InferenceRequest) (hp : payloadOf req = none) :
    processRequest cfg s req =
      { s with
        responses := setA (setA s.responses req.request_id none)
          req.request_id (some (500, msgEmptyPayload))
        agg := aggAppend s.agg req.request_id } := by
  unfold processRequest
  rw [hp]

theorem processRequest_tok_none (cfg : Config) (s : PreState)
    (req : InferenceRequest) (m : String) (hp : payloadOf req = some m)
    (ht : cfg.tokenizer m = none) :
    processRequest cfg s req =
      { s with
        responses := setA (setA s.responses req.request_id none)
          req.request_id (some (500, msgLoadTensorFail))
        agg := aggAppend s.agg req.request_id } := by
  simp only [processRequest, hp, ht]

theorem processRequest_ok (cfg : Config) (s : PreState)
    (req : InferenceRequest) (m : String) (ids : List Int)
    (hp : payloadOf req = some m) (ht : cfg.tokenizer m = some ids) :
    processRequest cfg s req =
      ⟨setA s.responses req.request_id none, aggAppend s.agg req.request_id,
       mapInsert s.tracker s.idx req.request_id,
       s.rows ++ [padToMax cfg.maxLength cfg.padId ids],
       (s.idx + 1) % 256⟩ := by
  simp only [processRequest, hp, ht]

theorem tokensOf_of_payload_none (cfg : Config) (req : InferenceRequest)
    (hp : payloadOf req = none) : tokensOf cfg req = none := by
  simp [tokensOf, hp]

theorem tokensOf_of_tok_none (cfg : Config) (req : InferenceRequest)
    (m : String) (hp : payloadOf req = some m) (ht : cfg.tokenizer m = none) :
    tokensOf cfg req = none := by
  simp [tokensOf, hp, ht]

theorem tokensOf_of_ok (cfg : Config) (req : InferenceRequest) (m : String)
    (ids : List Int) (hp : payloadOf req = some m)
    (ht : cfg.tokenizer m = some ids) : tokensOf cfg req = some ids := by
  simp [tokensOf, hp, ht]

theorem encList_cons_of_none (cfg : Config) (r : InferenceRequest)
    (rs : List InferenceRequest) (h : tokensOf cfg r = none) :
    encList cfg (r :: rs) = encList cfg rs := by
  simp [encList, List.filter_cons, isEncoded, h]

theorem encList_cons_of_some (cfg : Config) (r : InferenceRequest)
    (rs : List InferenceRequest) (ids : List Int)
    (h : tokensOf cfg r = some ids) :
    encList cfg (r :: rs) = r :: encList cfg rs := by
  simp [encList, List.filter_cons, isEncoded, h]

theorem rowOf_of_tokens (cfg : Config) (req : InferenceRequest)
    (ids : List Int) (h : tokensOf cfg req = some ids) :
    rowOf cfg req = padToMax cfg.maxLength cfg.padId ids := by
  simp [rowOf, h]

/-! ## Fold characterizations of the Preprocess loop -/

theorem foldl_rows (cfg : Config) : ∀ (rs : List InferenceRequest)
    (s : PreState),
    (rs.foldl (processRequest cfg) s).rows =
      s.rows ++ (encList cfg rs).map (rowOf cfg)
  | [], s => by simp [encList]
  | r :: rs, s => by
    rw [List.foldl_cons]
    rcases hp : payloadOf r with _ | m
    · rw [processRequest_payload_none cfg s r hp, foldl_rows cfg rs,
        encList_cons_of_none cfg r rs (tokensOf_of_payload_none cfg r hp)]
    · rcases ht : cfg.tokenizer m with _ | ids
      · rw [processRequest_tok_none cfg s r m hp ht, foldl_rows cfg rs,
          encList_cons_of_none cfg r rs (tokensOf_of_tok_none cfg r m hp ht)]
      · rw [processRequest_ok cfg s r m ids hp ht, foldl_rows cfg rs,
          encList_cons_of_some cfg r rs ids (tokensOf_of_ok cfg r m ids hp ht)]
        simp [rowOf_of_tokens cfg r ids (tokensOf_of_ok cfg r m ids hp ht)]

theorem foldl_agg (cfg : Config) : ∀ (rs : List InferenceRequest)
    (s : PreState),
    (rs.foldl (processRequest cfg) s).agg =
      (rs.map (·.request_id)).foldl aggAppend s.agg
  | [], s => by simp
  | r :: rs, s => by
    rw [List.foldl_cons, List.map_cons, List.foldl_cons]
    rcases hp : payloadOf r with _ | m
    · rw [processRequest_payload_none cfg s r hp, foldl_agg cfg rs]
    · rcases ht : cfg.tokenizer m with _ | ids
      · rw [processRequest_tok_none cfg s r m hp ht, foldl_agg cfg rs]
      · rw [processRequest_ok cfg s r m ids hp ht, foldl_agg cfg rs]

theorem foldl_responses (cfg : Config) : ∀ (rs : List InferenceRequest)
    (s : PreState),
    (rs.foldl (processRequest cfg) s).responses =
      rs.foldl (fun m r => setA m r.request_id (outcomeOf cfg r)) s.responses
  | [], s => by simp
  | r :: rs, s => by
    rw [List.foldl_cons, List.foldl_cons]
    rcases hp : payloadOf r with _ | m
    · rw [processRequest_payload_none cfg s r hp, foldl_responses cfg rs]
      simp [setA_setA, outcomeOf, hp]
    · rcases ht : cfg.tokenizer m with _ | ids
      · rw [processRequest_tok_none cfg s r m hp ht, foldl_responses cfg rs]
        simp [setA_setA, outcomeOf, hp, ht]
      · rw [processRequest_ok cfg s r m ids hp ht, foldl_responses cfg rs]
        simp [outcomeOf, hp, ht]

theorem foldl_idx (cfg : Config) : ∀ (rs : List InferenceRequest)
    (s : PreState), s.idx < 256 →
    (rs.foldl (processRequest cfg) s).idx =
      (s.idx + (encList cfg rs).length) % 256
  | [], s, hs => by
    simp [encList]
    omega
  | r :: rs, s, hs => by
    rw [List.foldl_cons]
    rcases hp : payloadOf r with _ | m
    · rw [processRequest_payload_none cfg s r hp,
        encList_cons_of_none cfg r rs (tokensOf_of_payload_none cfg r hp)]
      exact foldl_idx cfg rs _ hs
    · rcases ht : cfg.tokenizer m with _ | ids
      · rw [processRequest_tok_none cfg s r m hp ht,
          encList_cons_of_none cfg r rs (tokensOf_of_tok_none cfg r m hp ht)]
        exact foldl_idx cfg rs _ hs
      · rw [processRequest_ok cfg s r m ids hp ht,
          encList_cons_of_some cfg r rs ids (tokensOf_of_ok cfg r m ids hp ht)]
        have hrec := foldl_idx cfg rs
          ⟨setA s.responses r.request_id none, aggAppend s.agg r.request_id,
           mapInsert s.tracker s.idx r.request_id,
           s.rows ++ [padToMax cfg.maxLength cfg.padId ids],
           (s.idx + 1) % 256⟩ (Nat.mod_lt _ (by omega))
        simp only at hrec
        rw [hrec, Nat.mod_add_mod, List.length_cons]
        congr 1
        omega

end Bert

namespace Bert

theorem encIds_cons_of_none (cfg : Config) (r : InferenceRequest)
    (rs : List InferenceRequest) (h : tokensOf cfg r = none) :
    encIds cfg (r :: rs) = encIds cfg rs := by
  simp [encIds, encList_cons_of_none cfg r rs h]

theorem encIds_cons_of_some (cfg : Config) (r : InferenceRequest)
    (rs : List InferenceRequest) (ids : List Int)
    (h : tokensOf cfg r = some ids) :
    encIds cfg (r :: rs) = r.request_id :: encIds cfg rs := by
  simp [encIds, encList_cons_of_some cfg r rs ids h]

theorem foldl_tracker_sub (cfg : Config) : ∀ (rs : List InferenceRequest)
    (s : PreState) (x : String),
    x ∈ ((rs.foldl (processRequest cfg) s).tracker).map (·.2) →
    x ∈ s.tracker.map (·.2) ∨ x ∈ encIds cfg rs
  | [], _, _, hx => Or.inl hx
  | r :: rs, s, x, hx => by
    rw [List.foldl_cons] at hx
    rcases hp : payloadOf r with _ | m
    · rw [processRequest_payload_none cfg s r hp] at hx
      rw [encIds_cons_of_none cfg r rs (tokensOf_of_payload_none cfg r hp)]
      have hrec := foldl_tracker_sub cfg rs _ x hx
      exact hrec
    · rcases ht : cfg.tokenizer m with _ | ids
      · rw [processRequest_tok_none cfg s r m hp ht] at hx
        rw [encIds_cons_of_none cfg r rs (tokensOf_of_tok_none cfg r m hp ht)]
        have hrec := foldl_tracker_sub cfg rs _ x hx
        exact hrec
      · rw [processRequest_ok cfg s r m ids hp ht] at hx
        rw [encIds_cons_of_some cfg r rs ids (tokensOf_of_ok cfg r m ids hp ht)]
        rcases foldl_tracker_sub cfg rs _ x hx with hin | hin
        · obtain ⟨p, hpmem, hpx⟩ := List.mem_map.mp hin
          rcases mapInsert_mem s.tracker s.idx r.request_id p hpmem with
            heq | hold
          · subst heq
            exact Or.inr (by simp [← hpx])
          · exact Or.inl (List.mem_map.mpr ⟨p, hold, hpx⟩)
        · exact Or.inr (List.mem_cons_of_mem _ hin)

theorem foldl_tracker (cfg : Config) : ∀ (rs : List InferenceRequest)
    (prevIds : List String) (s : PreState),
    s.tracker = enumF 0 prevIds → s.idx = prevIds.length % 256 →
    prevIds.length + (encList cfg rs).length ≤ 256 →
    (rs.foldl (processRequest cfg) s).tracker =
      enumF 0 (prevIds ++ encIds cfg rs)
  | [], prevIds, s, htr, _, _ => by simp [encIds, encList, htr]
  | r :: rs, prevIds, s, htr, hidx, hbound => by
    rw [List.foldl_cons]
    rcases hp : payloadOf r with _ | m
    · have h0 := tokensOf_of_payload_none cfg r hp
      rw [processRequest_payload_none cfg s r hp,
        encIds_cons_of_none cfg r rs h0]
      exact foldl_tracker cfg rs prevIds _ htr hidx
        (by rwa [encList_cons_of_none cfg r rs h0] at hbound)
    · rcases ht : cfg.tokenizer m with _ | ids
      · have h0 := tokensOf_of_tok_none cfg r m hp ht
        rw [processRequest_tok_none cfg s r m hp ht,
          encIds_cons_of_none cfg r rs h0]
        exact foldl_tracker cfg rs prevIds _ htr hidx
          (by rwa [encList_cons_of_none cfg r rs h0] at hbound)
      · have h0 := tokensOf_of_ok cfg r m ids hp ht
        rw [processRequest_ok cfg s r m ids hp ht,
          encIds_cons_of_some cfg r rs ids h0]
        have hcount : prevIds.length + ((encList cfg rs).length + 1) ≤ 256 := by
          rw [encList_cons_of_some cfg r rs ids h0] at hbound
          simpa [Nat.add_comm] using hbound
        have hlt : prevIds.length < 256 := by omega
        have hkey : s.idx = prevIds.length := by
          rw [hidx, Nat.mod_eq_of_lt hlt]
        have hins : mapInsert s.tracker s.idx r.request_id =
            enumF 0 (prevIds ++ [r.request_id]) := by
          rw [htr, hkey, mapInsert_atEnd _ _ _
            (fun p hp' => by simpa using enumF_keys_lt prevIds 0 p hp'),
            enumF_append]
          simp [enumF]
        have hrec := foldl_tracker cfg rs (prevIds ++ [r.request_id])
          ⟨setA s.responses r.request_id none, aggAppend s.agg r.request_id,
           mapInsert s.tracker s.idx r.request_id,
           s.rows ++ [padToMax cfg.maxLength cfg.padId ids],
           (s.idx + 1) % 256⟩
          hins (by simp [hkey]) (by simp; omega)
        rw [hrec]
        congr 1
        simp

theorem foldl_tracker_wf (cfg : Config) : ∀ (rs : List InferenceRequest)
    (s : PreState),
    s.tracker.Pairwise (fun a b => a.1 < b.1) →
    (∀ p ∈ s.tracker, p.1 < 256) → s.idx < 256 →
    ((rs.foldl (processRequest cfg) s).tracker.Pairwise
        (fun a b => a.1 < b.1) ∧
      ∀ p ∈ (rs.foldl (processRequest cfg) s).tracker, p.1 < 256)
  | [], s, h1, h2, _ => ⟨h1, h2⟩
  | r :: rs, s, h1, h2, h3 => by
    rw [List.foldl_cons]
    rcases hp : payloadOf r with _ | m
    · rw [processRequest_payload_none cfg s r hp]
      exact foldl_tracker_wf cfg rs _ h1 h2 h3
    · rcases ht : cfg.tokenizer m with _ | ids
      · rw [processRequest_tok_none cfg s r m hp ht]
        exact foldl_tracker_wf cfg rs _ h1 h2 h3
      · rw [processRequest_ok cfg s r m ids hp ht]
        refine foldl_tracker_wf cfg rs _
          (mapInsert_pairwise _ _ _ h1) ?_ (Nat.mod_lt _ (by omega))
        intro p hpmem
        rcases mapInsert_mem s.tracker s.idx r.request_id p hpmem with
          heq | hold
        · subst heq
          exact h3
        · exact h2 p hold

theorem tracker_length_le (l : List (Nat × String))
    (hp : l.Pairwise (fun a b => a.1 < b.1)) (hb : ∀ p ∈ l, p.1 < 256) :
    l.length ≤ 256 := by
  have h1 : (l.map (·.1)).Pairwise (· < ·) :=
    List.Pairwise.map _ (fun a b h => h) hp
  have hnd : (l.map (·.1)).Nodup := h1.imp (fun h => Nat.ne_of_lt h)
  have hsub : (l.map (·.1)).toFinset ⊆ Finset.range 256 := by
    intro x hx
    rw [List.mem_toFinset] at hx
    obtain ⟨p, hpmem, rfl⟩ := List.mem_map.mp hx
    exact Finset.mem_range.mpr (hb p hpmem)
  calc l.length = (l.map (·.1)).length := by simp
    _ = (l.map (·.1)).toFinset.card := (List.toFinset_card_of_nodup hnd).symm
    _ ≤ (Finset.range 256).card := Finset.card_le_card hsub
    _ = 256 := Finset.card_range 256

/-! ## padToMax lemmas -/

theorem padToMax_length (m : Nat) (p : Int) (ids : List Int) :
    (padToMax m p ids).length = m := by
  unfold padToMax
  by_cases h : ids.length < m
  · simp [h]
    omega
  · simp [h]
    omega

theorem padToMax_eq_take (m : Nat) (p : Int) (ids : List Int) :
    padToMax m p ids = (ids ++ List.replicate (m - ids.length) p).take m := by
  unfold padToMax
  by_cases h : ids.length < m
  · simp [h]
  · have h0 : m - ids.length = 0 := by omega
    simp [h, h0]

theorem takeWhile_append_pad (p : Int) : ∀ (ids : List Int) (k : Nat),
    0 < k → p ∉ ids →
    (ids ++ List.replicate k p).takeWhile (fun x => x != p) = ids
  | [], k, hk, _ => by
    cases k with
    | zero => omega
    | succ k => simp [List.replicate_succ, List.takeWhile_cons]
  | x :: ids, k, hk, hmem => by
    have hx : ¬ x = p := fun h =>
      hmem (by rw [← h]; exact List.mem_cons_self x ids)
    simp only [List.cons_append, List.takeWhile_cons]
    rw [if_pos (by simp [hx])]
    rw [takeWhile_append_pad p ids k hk
      (fun h => hmem (List.mem_cons_of_mem _ h))]

/-! ## Preprocess characterization at the initial state -/

theorem preprocess_rows (cfg : Config) (batch : List InferenceRequest) :
    (preprocess cfg batch).state.rows = (encList cfg batch).map (rowOf cfg) := by
  simpa [preprocess, initState] using foldl_rows cfg batch initState

theorem preprocess_agg (cfg : Config) (batch : List InferenceRequest) :
    (preprocess cfg batch).state.agg = commaJoin (batch.map (·.request_id)) := by
  simpa [preprocess, initState, commaJoin] using foldl_agg cfg batch initState

theorem preprocess_responses (cfg : Config) (batch : List InferenceRequest) :
    (preprocess cfg batch).state.responses =
      batch.foldl (fun m r => setA m r.request_id (outcomeOf cfg r)) [] := by
  simpa [preprocess, initState] using foldl_responses cfg batch initState

theorem preprocess_tracker (cfg : Config) (batch : List InferenceRequest)
    (hn : (encList cfg batch).length ≤ 256) :
    (preprocess cfg batch).state.tracker = enumF 0 (encIds cfg batch) := by
  simpa [preprocess, initState] using
    foldl_tracker cfg batch [] initState rfl rfl (by simpa using hn)

theorem preprocess_idx (cfg : Config) (batch : List InferenceRequest) :
    (preprocess cfg batch).state.idx = (encList cfg batch).length % 256 := by
  simpa [preprocess, initState] using
    foldl_idx cfg batch initState (by simp [initState])

theorem preprocess_tracker_wf (cfg : Config) (batch : List InferenceRequest) :
    ((preprocess cfg batch).state.tracker.Pairwise (fun a b => a.1 < b.1) ∧
      ∀ p ∈ (preprocess cfg batch).state.tracker, p.1 < 256) := by
  simpa [preprocess, initState] using
    foldl_tracker_wf cfg batch initState (by simp [initState])
      (by simp [initState]) (by simp [initState])

end Bert

namespace Bert

/-! ## Postprocess lemmas -/

theorem post_foldl_none (mapping : List (String × JVal))
    (out : List (List Int)) : ∀ (tracker : List (Nat × String)),
    tracker.foldl (postStep mapping out) none = none
  | [] => rfl
  | e :: rest => by
    rw [List.foldl_cons]
    exact post_foldl_none mapping out rest

theorem post_lookup_not_mem (mapping : List (String × JVal))
    (out : List (List Int)) : ∀ (tracker : List (Nat × String))
    (resp res : RespMap) (rid : String),
    rid ∉ tracker.map (·.2) →
    tracker.foldl (postStep mapping out) (some resp) = some res →
    lookupA res rid = lookupA resp rid
  | [], resp, res, rid, _, hres => by
    cases hres
    rfl
  | e :: rest, resp, res, rid, hnm, hres => by
    rw [List.foldl_cons] at hres
    rcases hd : decodeOne mapping out e.1 with _ | v
    · rw [show postStep mapping out (some resp) e = none by
        simp [postStep, hd]] at hres
      rw [post_foldl_none mapping out rest] at hres
      exact Option.noConfusion hres
    · rw [show postStep mapping out (some resp) e =
          some (setA resp e.2 (some v)) by simp [postStep, hd]] at hres
      have hne : rid ≠ e.2 := fun h => hnm (by simp [h])
      have hrest : rid ∉ rest.map (·.2) := fun h =>
        hnm (List.mem_cons_of_mem _ h)
      rw [post_lookup_not_mem mapping out rest _ res rid hrest hres]
      exact lookupA_setA_ne resp e.2 rid (some v) hne

theorem post_lookup (mapping : List (String × JVal))
    (out : List (List Int)) : ∀ (tracker : List (Nat × String))
    (resp res : RespMap) (i : Nat) (rid : String),
    (i, rid) ∈ tracker → (tracker.map (·.2)).Nodup →
    tracker.foldl (postStep mapping out) (some resp) = some res →
    ∃ v, decodeOne mapping out i = some v ∧
      lookupA res rid = some (some v)
  | [], _, _, _, _, hmem, _, _ => absurd hmem (List.not_mem_nil _)
  | e :: rest, resp, res, i, rid, hmem, hnd, hres => by
    rw [List.foldl_cons] at hres
    rw [List.map_cons, List.nodup_cons] at hnd
    obtain ⟨hnd1, hnd2⟩ := hnd
    rcases hd : decodeOne mapping out e.1 with _ | v
    · rw [show postStep mapping out (some resp) e = none by
        simp [postStep, hd]] at hres
      rw [post_foldl_none mapping out rest] at hres
      exact Option.noConfusion hres
    · rw [show postStep mapping out (some resp) e =
          some (setA resp e.2 (some v)) by simp [postStep, hd]] at hres
      rcases List.mem_cons.mp hmem with heq | hmem'
      · have he1 : e.1 = i := by rw [← heq]
        have he2 : e.2 = rid := by rw [← heq]
        refine ⟨v, by rw [← he1]; exact hd, ?_⟩
        have hnm : rid ∉ rest.map (·.2) := he2 ▸ hnd1
        rw [post_lookup_not_mem mapping out rest _ res rid hnm hres]
        rw [← he2, lookupA_setA_self]
      · exact post_lookup mapping out rest _ res i rid hmem' hnd2 hres

theorem enumF_map_snd : ∀ (n : Nat) (as : List String),
    (enumF n as).map (·.2) = as
  | _, [] => rfl
  | n, a :: as => by
    rw [show enumF n (a :: as) = (n, a) :: enumF (n + 1) as from rfl,
      List.map_cons, enumF_map_snd (n + 1) as]

theorem encIds_nodup (cfg : Config) (batch : List InferenceRequest)
    (hd : (batch.map (·.request_id)).Nodup) : (encIds cfg batch).Nodup := by
  have hsub : List.Sublist (encList cfg batch) batch := List.filter_sublist _
  exact (hsub.map (·.request_id)).nodup hd

/-! ## Response lookup after the Preprocess fold -/

theorem lookup_respfold_not_mem (cfg : Config) :
    ∀ (rs : List InferenceRequest) (m : RespMap) (k : String),
    k ∉ rs.map (·.request_id) →
    lookupA (rs.foldl
      (fun acc r => setA acc r.request_id (outcomeOf cfg r)) m) k =
      lookupA m k
  | [], _, _, _ => rfl
  | r :: rs, m, k, hk => by
    rw [List.foldl_cons]
    have hne : k ≠ r.request_id := fun h => hk (by simp [h])
    have hrest : k ∉ rs.map (·.request_id) := fun h =>
      hk (List.mem_cons_of_mem _ h)
    rw [lookup_respfold_not_mem cfg rs _ k hrest]
    exact lookupA_setA_ne m r.request_id k _ hne

theorem preprocess_response_of_mem (cfg : Config)
    (batch : List InferenceRequest) (req : InferenceRequest)
    (hreq : req ∈ batch) (hd : (batch.map (·.request_id)).Nodup) :
    lookupA (preprocess cfg batch).state.responses req.request_id =
      some (outcomeOf cfg req) := by
  obtain ⟨l1, l2, rfl⟩ := List.append_of_mem hreq
  rw [preprocess_responses, List.foldl_append, List.foldl_cons]
  have hk : req.request_id ∉ l2.map (·.request_id) := by
    rw [List.map_append, List.map_cons] at hd
    exact (List.nodup_cons.mp (hd.of_append_right)).1
  rw [lookup_respfold_not_mem cfg l2 _ _ hk, lookupA_setA_self]

theorem payloadOf_none_of_missing (req : InferenceRequest)
    (hdata : ¬ ((lookupA req.parameters kParameterNameData).isSome ∧
      (lookupA req.headers kHeaderNameDataType).isSome))
    (hbody : ¬ ((lookupA req.parameters kParameterNameBody).isSome ∧
      (lookupA req.headers kHeaderNameBodyType).isSome)) :
    payloadOf req = none := by
  unfold payloadOf
  rcases h1 : lookupA req.parameters kParameterNameData with _ | v
  · rcases h3 : lookupA req.parameters kParameterNameBody with _ | w
    · rfl
    · rcases h4 : lookupA req.headers kHeaderNameBodyType with _ | t
      · rfl
      · exact absurd ⟨by simp [h3], by simp [h4]⟩ hbody
  · rcases h2 : lookupA req.headers kHeaderNameDataType with _ | t
    · rfl
    · exact absurd ⟨by simp [h1], by simp [h2]⟩ hdata

end Bert

namespace Bert

/-- C2 counterexample: with max_length 2 and a request tokenizing to the
three ids 1, 2, 3, the claim says the over-length request is rejected and
contributes no row; instead Preprocess still contributes a row holding the
first two token ids, so the claimed rejection is false on the code. -/
theorem c2_overlong_row_counterexample :
    (preprocess cfgC2 [reqC2]).state.rows = [[1, 2]] ∧
    (preprocess cfgC2 [reqC2]).state.rows ≠ [] := by
  constructor
  · rfl
  · decide

/-- C2 (amended): every row of the token batch is exactly max_length wide;
a sequence shorter than max_length is right-padded with the pad id, but a
sequence longer than max_length is not rejected: its row holds its first
max_length token ids (the uniform closed form below covers both cases). -/
theorem c2_rows_fixed_width (cfg : Config) (batch : List InferenceRequest) :
    (∀ row ∈ (preprocess cfg batch).state.rows,
      row.length = cfg.maxLength) ∧
    (∀ req ∈ encList cfg batch,
      rowOf cfg req =
        ((tokensOf cfg req).getD [] ++
          List.replicate
            (cfg.maxLength - ((tokensOf cfg req).getD []).length)
            cfg.padId).take cfg.maxLength) := by
  constructor
  · intro row hrow
    rw [preprocess_rows] at hrow
    obtain ⟨req, _, rfl⟩ := List.mem_map.mp hrow
    simpa [rowOf] using
      padToMax_length cfg.maxLength cfg.padId ((tokensOf cfg req).getD [])
  · intro req _
    simpa [rowOf] using
      padToMax_eq_take cfg.maxLength cfg.padId ((tokensOf cfg req).getD [])

/-- C2 witness: the amended row-shape theorem applied to the concrete
over-length batch. -/
theorem c2_rows_fixed_width_witness :
    ([1, 2] : List Int).length = cfgC2.maxLength ∧
    rowOf cfgC2 reqC2 =
      ((tokensOf cfgC2 reqC2).getD [] ++
        List.replicate
          (cfgC2.maxLength - ((tokensOf cfgC2 reqC2).getD []).length)
          cfgC2.padId).take cfgC2.maxLength :=
  ⟨(c2_rows_fixed_width cfgC2 [reqC2]).1 [1, 2] (by decide),
   (c2_rows_fixed_width cfgC2 [reqC2]).2 reqC2 (by decide)⟩

/-- C3: on the two-request batch where the second request has no payload,
only one row is collected and the tracker has exactly one entry, yet the
tensor returned at line 136 is declared with request_batch size (2) rows:
the collected rows match the tracker, the declared shape does not. -/
theorem c3_declared_rows_mismatch :
    (preprocess cfgC3 [reqOkC3, reqBadC3]).state.tracker.length = 1 ∧
    (preprocess cfgC3 [reqOkC3, reqBadC3]).state.rows.length = 1 ∧
    (preprocess cfgC3 [reqOkC3, reqBadC3]).declaredRows = 2 := by
  refine ⟨rfl, rfl, rfl⟩

/-- C5: with a label mapping knowing only index 0 and an output row whose
argmax index is 1, the GetJsonValue lookup misses and Postprocess hits the
bare rethrow with no active exception, terminating the process instead of
writing a 500 response (modelled as the none result). -/
theorem c5_label_miss_terminates :
    postprocess mappingC5 [[0, 5]] [(0, "r1")] [("r1", none)] = none := by
  rfl

/-- C7 counterexample: the claim quantifies over every token sequence
shorter than max_length, but a sequence already containing the pad id is
not recovered: padding the one-token sequence pad-id 7 to width 2 and
re-extracting the prefix before the first pad returns the empty list. -/
theorem c7_pad_roundtrip_counterexample :
    ¬ (takeBeforePad 7 (padToMax 2 7 [7]) = [7]) := by
  decide

/-- C7 (amended): for every token sequence shorter than max_length that
does not itself contain the pad id, right-padding with the pad id and then
taking the prefix before the first pad returns the original sequence. -/
theorem c7_pad_roundtrip (m : Nat) (p : Int) (ids : List Int)
    (hlen : ids.length < m) (hp : p ∉ ids) :
    takeBeforePad p (padToMax m p ids) = ids := by
  unfold padToMax
  rw [if_pos hlen]
  have hlen2 : (ids ++ List.replicate (m - ids.length) p).length = m := by
    simp
    omega
  rw [List.take_of_length_le (le_of_eq hlen2)]
  exact takeWhile_append_pad p ids (m - ids.length) (by omega) hp

/-- C7 witness: the amended padding round trip at a concrete sequence. -/
theorem c7_pad_roundtrip_witness :
    ([1, 2] : List Int).length < 4 ∧ (0 : Int) ∉ ([1, 2] : List Int) ∧
    takeBeforePad 0 (padToMax 4 0 [1, 2]) = [1, 2] :=
  ⟨by decide, by decide, c7_pad_roundtrip 4 0 [1, 2] (by decide) (by decide)⟩

/-- C8: when the data parameter is present but the data-type header is
missing, the loop does not fall back to the body key pair (even if one is
present): the request is treated as an empty payload, gets a 500 Empty
payload response, and neither a row, nor a tracker entry, nor a cursor
step. -/
theorem c8_data_without_header_no_fallback (cfg : Config) (s : PreState)
    (req : InferenceRequest) (v : String)
    (hdata : lookupA req.parameters kParameterNameData = some v)
    (hhdr : lookupA req.headers kHeaderNameDataType = none) :
    (processRequest cfg s req).rows = s.rows ∧
    (processRequest cfg s req).tracker = s.tracker ∧
    (processRequest cfg s req).idx = s.idx ∧
    lookupA (processRequest cfg s req).responses req.request_id =
      some (some (500, msgEmptyPayload)) := by
  have hp : payloadOf req = none := by
    unfold payloadOf
    rw [hdata, hhdr]
  rw [processRequest_payload_none cfg s req hp]
  exact ⟨rfl, rfl, rfl, lookupA_setA_self _ _ _⟩

/-- C8 witness: a request carrying a complete body pair and a data
parameter without its header still yields the empty-payload 500 and no
row. -/
theorem c8_no_fallback_witness :
    (processRequest cfgC8 initState reqC8).rows = initState.rows ∧
    (processRequest cfgC8 initState reqC8).tracker = initState.tracker ∧
    (processRequest cfgC8 initState reqC8).idx = initState.idx ∧
    lookupA (processRequest cfgC8 initState reqC8).responses "w" =
      some (some (500, msgEmptyPayload)) :=
  c8_data_without_header_no_fallback cfgC8 initState reqC8 "x" rfl rfl

/-- C10: the aggregate request-id string is the comma join of every
request id of the batch in arrival order, independent of payload validity
or tokenization outcome, so it also contains the ids of requests that
never receive a row. -/
theorem c10_agg_ids_include_failed (cfg : Config)
    (batch : List InferenceRequest) :
    (preprocess cfg batch).state.agg =
      commaJoin (batch.map (·.request_id)) :=
  preprocess_agg cfg batch

end Bert

namespace Bert

/-- C6: if any of the required config keys max_length, tokenizer_path or
model_so_path is absent from the config document, LoadModel fails with a
load error (the terminating missing-field branch of GetJsonValue) and
produces no loaded handler state at all. -/
theorem c6_load_missing_key_fails (isCuda : Bool)
    (mf : Option (List (String × JVal))) (config : List (String × JVal))
    (tf : Option String)
    (h : getJsonValue config "max_length" = none ∨
      getJsonValue config "tokenizer_path" = none ∨
      getJsonValue config "model_so_path" = none) :
    ∃ e, loadModel isCuda mf (some config) tf = Except.error e := by
  cases mf with
  | none => exact ⟨.fileNotFound, rfl⟩
  | some mapping =>
    rcases h with h | h | h
    · exact ⟨.missingField "max_length", by simp [loadModel, h]⟩
    · rcases h1 : getJsonValue config "max_length" with _ | v1
      · exact ⟨.missingField "max_length", by simp [loadModel, h1]⟩
      · rcases h2 : asIntJ v1 with _ | n
        · exact ⟨.typeError, by simp [loadModel, h1, h2]⟩
        · exact ⟨.missingField "tokenizer_path",
            by simp [loadModel, h1, h2, h]⟩
    · rcases h1 : getJsonValue config "max_length" with _ | v1
      · exact ⟨.missingField "max_length", by simp [loadModel, h1]⟩
      · rcases h2 : asIntJ v1 with _ | n
        · exact ⟨.typeError, by simp [loadModel, h1, h2]⟩
        · rcases h3 : getJsonValue config "tokenizer_path" with _ | v3
          · exact ⟨.missingField "tokenizer_path",
              by simp [loadModel, h1, h2, h3]⟩
          · cases tf with
            | none => exact ⟨.fileNotFound, by simp [loadModel, h1, h2, h3]⟩
            | some blob => exact ⟨.missingField "model_so_path",
                by simp [loadModel, h1, h2, h3, h]⟩

/-- C6 witness: a config document holding only max_length aborts loading
because tokenizer_path is missing. -/
theorem c6_load_missing_key_witness :
    (getJsonValue [("max_length", JVal.jint 8)] "max_length" = none ∨
      getJsonValue [("max_length", JVal.jint 8)] "tokenizer_path" = none ∨
      getJsonValue [("max_length", JVal.jint 8)] "model_so_path" = none) ∧
    ∃ e, loadModel false (some []) (some [("max_length", JVal.jint 8)])
      (some "blob") = Except.error e :=
  ⟨Or.inr (Or.inl rfl),
   c6_load_missing_key_fails false (some []) [("max_length", JVal.jint 8)]
     (some "blob") (Or.inr (Or.inl rfl))⟩

/-- C9: when more than 256 requests of a batch are successfully encoded,
the uint8_t row cursor wraps modulo 256: every tracker key stays below
256, the tracker map retains at most 256 entries, strictly fewer than the
number of appended rows (assignments overwrote earlier entries at the
same wrapped index), and the final cursor equals the encoded count modulo
256 - the dense row-to-entry mapping is broken. -/
theorem c9_row_index_wrap_uint8 (cfg : Config)
    (batch : List InferenceRequest)
    (h : 256 < (encList cfg batch).length) :
    (preprocess cfg batch).state.tracker.length ≤ 256 ∧
    (preprocess cfg batch).state.tracker.length <
      (preprocess cfg batch).state.rows.length ∧
    (∀ p ∈ (preprocess cfg batch).state.tracker, p.1 < 256) ∧
    (preprocess cfg batch).state.idx = (encList cfg batch).length % 256 := by
  obtain ⟨hpw, hbd⟩ := preprocess_tracker_wf cfg batch
  have hle := tracker_length_le _ hpw hbd
  have hrows : (preprocess cfg batch).state.rows.length =
      (encList cfg batch).length := by
    rw [preprocess_rows, List.length_map]
  exact ⟨hle, by omega, hbd, preprocess_idx cfg batch⟩

/-- C9 witness: the wrap theorem applied to a concrete batch of 300 valid
requests. -/
theorem c9_row_index_wrap_witness :
    256 < (encList cfgC9 batchC9).length ∧
    ((preprocess cfgC9 batchC9).state.tracker.length ≤ 256 ∧
      (preprocess cfgC9 batchC9).state.tracker.length <
        (preprocess cfgC9 batchC9).state.rows.length ∧
      (∀ p ∈ (preprocess cfgC9 batchC9).state.tracker, p.1 < 256) ∧
      (preprocess cfgC9 batchC9).state.idx =
        (encList cfgC9 batchC9).length % 256) := by
  have hall : ∀ r ∈ batchC9, isEncoded cfgC9 r = true := by
    intro r hr
    obtain ⟨n, _, rfl⟩ := List.mem_map.mp hr
    rfl
  have h : 256 < (encList cfgC9 batchC9).length := by
    show 256 < (batchC9.filter (isEncoded cfgC9)).length
    rw [List.filter_eq_self.mpr hall]
    rw [show batchC9.length = 300 by simp [batchC9]]
    omega
  exact ⟨h, c9_row_index_wrap_uint8 cfgC9 batchC9 h⟩

/-- C4: a request whose parameters and headers contain neither a complete
data key pair nor a complete body key pair receives a 500 Empty payload
response, appears nowhere in the tracker, and Preprocess continues: the
number of collected rows equals the number of requests with a valid
payload (given that tokenization succeeds on every valid payload of the
batch). -/
theorem c4_missing_payload_isolated (cfg : Config)
    (batch : List InferenceRequest) (req : InferenceRequest)
    (hd : (batch.map (·.request_id)).Nodup)
    (ht : ∀ r ∈ batch, ∀ p, payloadOf r = some p →
      (cfg.tokenizer p).isSome)
    (hreq : req ∈ batch)
    (hdata : ¬ ((lookupA req.parameters kParameterNameData).isSome ∧
      (lookupA req.headers kHeaderNameDataType).isSome))
    (hbody : ¬ ((lookupA req.parameters kParameterNameBody).isSome ∧
      (lookupA req.headers kHeaderNameBodyType).isSome)) :
    lookupA (preprocess cfg batch).state.responses req.request_id =
      some (some (500, msgEmptyPayload)) ∧
    req.request_id ∉ ((preprocess cfg batch).state.tracker).map (·.2) ∧
    (preprocess cfg batch).state.rows.length =
      (batch.filter (fun r => (payloadOf r).isSome)).length := by
  have hp : payloadOf req = none := payloadOf_none_of_missing req hdata hbody
  refine ⟨?_, ?_, ?_⟩
  · rw [preprocess_response_of_mem cfg batch req hreq hd]
    simp [outcomeOf, hp]
  · intro hmem
    rcases foldl_tracker_sub cfg batch initState req.request_id hmem with
      h0 | h0
    · simp [initState] at h0
    · obtain ⟨r, hr, hrid⟩ := List.mem_map.mp h0
      have hrb : r ∈ batch := List.mem_of_mem_filter hr
      have hre : isEncoded cfg r = true := List.of_mem_filter hr
      have hreqr : r = req := by
        have hinj := List.inj_on_of_nodup_map hd
        exact hinj hrb hreq hrid
      rw [hreqr] at hre
      simp [isEncoded, tokensOf, hp] at hre
  · rw [preprocess_rows, List.length_map]
    show (batch.filter (isEncoded cfg)).length = _
    congr 1
    refine List.filter_congr ?_
    intro r hr
    rcases hpr : payloadOf r with _ | p
    · simp [isEncoded, tokensOf, hpr]
    · have hsome := ht r hr p hpr
      rcases hq : cfg.tokenizer p with _ | q
      · rw [hq] at hsome
        exact absurd hsome (by simp)
      · simp [isEncoded, tokensOf, hpr, hq]

/-- C4 witness: on a concrete two-request batch, the payloadless request
gets the Empty payload 500, stays out of the tracker, and the single row
matches the single valid-payload request. -/
theorem c4_missing_payload_witness :
    lookupA (preprocess cfgC4 [reqC4ok, reqC4bad]).state.responses
      reqC4bad.request_id = some (some (500, msgEmptyPayload)) ∧
    reqC4bad.request_id ∉
      ((preprocess cfgC4 [reqC4ok, reqC4bad]).state.tracker).map (·.2) ∧
    (preprocess cfgC4 [reqC4ok, reqC4bad]).state.rows.length =
      ([reqC4ok, reqC4bad].filter (fun r => (payloadOf r).isSome)).length :=
  c4_missing_payload_isolated cfgC4 [reqC4ok, reqC4bad] reqC4bad
    (by decide) (fun r _ p _ => rfl) (by decide) (by decide) (by decide)

end Bert

namespace Bert

/-- C1: for every batch with at most 256 encoded rows and pairwise
distinct request ids, each tracker entry (i, rid) produced by Preprocess
identifies the i-th successfully encoded request: rid is its request id,
row i of the collected token batch is the row encoded from that same
request, and whenever Postprocess completes it finalizes the response of
rid with exactly the decode of row i of the engine output tensor. -/
theorem c1_row_request_correspondence (cfg : Config)
    (batch : List InferenceRequest) (mapping : List (String × JVal))
    (out : List (List Int)) (resp0 : RespMap)
    (hn : (encList cfg batch).length ≤ 256)
    (hd : (batch.map (·.request_id)).Nodup) :
    ∀ i rid, (i, rid) ∈ (preprocess cfg batch).state.tracker →
      (∃ req, req ∈ encList cfg batch ∧ req.request_id = rid ∧
        (preprocess cfg batch).state.rows.get? i = some (rowOf cfg req)) ∧
      (∀ res,
        postprocess mapping out (preprocess cfg batch).state.tracker resp0 =
          some res →
        ∃ v, decodeOne mapping out i = some v ∧
          lookupA res rid = some (some v)) := by
  intro i rid hmem
  have htr := preprocess_tracker cfg batch hn
  constructor
  · rw [htr] at hmem
    have hget0 := (enumF_mem (encIds cfg batch) 0 i rid).mp hmem
    have hget : (encIds cfg batch).get? i = some rid := by
      simpa using hget0.2
    have hmap : ((encList cfg batch).map (·.request_id)).get? i =
        some rid := hget
    rw [List.get?_map] at hmap
    obtain ⟨req, hreqi, hridreq⟩ := Option.map_eq_some'.mp hmap
    refine ⟨req, List.get?_mem hreqi, hridreq, ?_⟩
    rw [preprocess_rows, List.get?_map, hreqi]
    rfl
  · intro res hres
    have hnd : (((preprocess cfg batch).state.tracker).map (·.2)).Nodup := by
      rw [htr, enumF_map_snd]
      exact encIds_nodup cfg batch hd
    exact post_lookup mapping out _ resp0 res i rid hmem hnd hres

/-- C1 witness: the correspondence applied to a concrete one-request
batch, tracker entry (0, a), and a concrete output tensor. -/
theorem c1_row_request_correspondence_witness :
    (∃ req, req ∈ encList cfgC1w [reqC1w] ∧ req.request_id = "a" ∧
      (preprocess cfgC1w [reqC1w]).state.rows.get? 0 =
        some (rowOf cfgC1w req)) ∧
    (∀ res,
      postprocess mappingC1w [[3]]
        (preprocess cfgC1w [reqC1w]).state.tracker [("a", none)] =
          some res →
      ∃ v, decodeOne mappingC1w [[3]] 0 = some v ∧
        lookupA res "a" = some (some v)) :=
  c1_row_request_correspondence cfgC1w [reqC1w] mappingC1w [[3]]
    [("a", none)] (by decide) (by decide) 0 "a" (by decide)

end Bert
